import Mathlib

/-!
Verification of `src/guessing_number_game.py` (console number-guessing game).

The Python program is shallowly embedded below:
* machine/Python integers become `ℤ` (guesses, targets) or `ℕ` (counters);
* the float expression `min(streak, max_streak) / max_streak * length`
  followed by `int(...)` is modelled twice: exactly over `ℚ` with
  `Nat.floor` in `progress_bar`, and at actual IEEE-754 binary64 precision
  in `pyFilled` / `progress_bar_py` (each Python float operation correctly
  rounded, round to nearest, ties to even).  At the only parameters the
  program calls it with (`max_streak = 5`, `length = 10`) the two models
  provably agree (`progress_bar_default_agree`); for other parameters the
  binary64 rounding can lower the fill below the exact rational floor;
* console output becomes a `List String` of printed lines
  (`print(a, b)` joins its arguments with one space);
* each call to `input()` inside `get_user_guess` is modelled by the result
  of Python `int(...)` parsing on that line: `Option ℤ` (`none` = the
  `ValueError` branch);
* the interactive session is driven by the finite list of per-round inputs
  (random target, the up-to-3 validated guesses, the play-again answer);
  `gameLoop` returns `none` when that input list is exhausted while the
  loop would keep running (the real program would block on `input()`).
-/

/-- Session state: the three global counters of the program
(`score`, `total_attempts`, `win_streak`). -/
structure GState where
  score : ℕ
  total_attempts : ℕ
  win_streak : ℕ
  deriving DecidableEq, Repr

/-- `progress_bar(streak, max_streak=5, length=10)` from the source:
`progress = min(streak, max_streak) / max_streak`,
`filled = int(progress * length)`,
`bar = "█" * filled + "-" * (length - filled)`,
returns `f"[{bar}] {streak}/{max_streak}"`.
The float computation is modelled here as its exact-rational idealization
(`int(...)` on a non-negative value is `Nat.floor`); this coincides with
the binary64 semantics at the defaults `(5, 10)` — the only parameters the
program uses — by `progress_bar_default_agree`, but not for arbitrary
parameters (see `pyFilled` for the bit-exact model). -/
def progress_bar (streak max_streak length : ℕ) : String :=
  let progress : ℚ := (min streak max_streak : ℕ) / (max_streak : ℚ)
  let filled : ℕ := ⌊progress * (length : ℚ)⌋₊
  let bar : String :=
    String.mk (List.replicate filled '█' ++ List.replicate (length - filled) '-')
  "[" ++ bar ++ "] " ++ toString streak ++ "/" ++ toString max_streak

/-- The two distinct error messages of `get_user_guess`. -/
def guess_range_msg : String := "❌ Please enter a number between 1 and 10."

/-- Error message printed by the `except ValueError` branch of `get_user_guess`. -/
def guess_format_msg : String := "❌ Invalid input. Please enter a number."

/-- `get_user_guess()` from the source, driven by the list of successive
input lines, each already passed through Python `int(...)`:
`none` is a line that raises `ValueError`, `some g` a line parsing to `g`.
Loops (`none` result) when the list is exhausted without a valid guess.
Returns the accepted guess together with the error lines printed before it. -/
def get_user_guess : List (Option ℤ) → Option (ℤ × List String)
  | [] => none
  | none :: rest =>
    match get_user_guess rest with
    | none => none
    | some (g, msgs) => some (g, guess_format_msg :: msgs)
  | some g :: rest =>
    if 1 ≤ g ∧ g ≤ 10 then some (g, [])
    else
      match get_user_guess rest with
      | none => none
      | some (g2, msgs) => some (g2, guess_range_msg :: msgs)

/-- Whether one parsed input line would be accepted by `get_user_guess`. -/
def isValidGuess : Option ℤ → Bool
  | none => false
  | some g => decide (1 ≤ g ∧ g ≤ 10)

/-- The error message `get_user_guess` prints for a rejected input line. -/
def rejectionMsg : Option ℤ → String
  | none => guess_format_msg
  | some _ => guess_range_msg

/-- The body of the per-attempt branch in the main loop
(lines 157-170 of the source): the line printed for a guess,
`"🎉 Correct!"` on a match, otherwise the hint
`"⬆️ Higher!" if guess < number else "⬇️ Lower!"`. -/
def attemptResponse (guess number : ℤ) : String :=
  if guess = number then "🎉 Correct!"
  else if guess < number then "⬆️ Higher!" else "⬇️ Lower!"

/-- The `for _ in range(3)` attempt loop of a round, taking the list of
successive validated guesses the loop would consume (length 3 in any real
round, since `get_user_guess` always returns).  For each attempt the loop
increments `total_attempts` (and `attempts_in_round`, returned as the third
component); on a correct guess it increments `score` and `win_streak` and
breaks with `guessed = True` (second component). -/
def attemptLoop (number : ℤ) : List ℤ → GState → GState × Bool × ℕ
  | [], s => (s, false, 0)
  | g :: rest, s =>
    let s1 : GState := { s with total_attempts := s.total_attempts + 1 }
    if g = number then
      ({ s1 with score := s1.score + 1, win_streak := s1.win_streak + 1 }, true, 1)
    else
      let r := attemptLoop number rest s1
      (r.1, r.2.1, r.2.2 + 1)

/-- The reason string assigned at line 181 of the source when the streak
reaches 5.  Note: it is a descriptive sentence, not the `"win5"` tag that
`show_status` tests for. -/
def champion_reason : String := "🎉 5 consecutive wins achieved"

/-- The inputs consumed by one iteration of the main `while` loop:
the random target, the validated guesses of the round, and the answer
to `"Play again? (yes/no): "` (`true` = `"yes"`; only consulted when the
round was won and the streak is below 5). -/
structure RoundInput where
  target : ℤ
  guesses : List ℤ
  playAgain : Bool
  deriving DecidableEq, Repr

/-- Result of one iteration of the main `while` loop. -/
inductive StepResult where
  | ended (s : GState) (reason : String)
  | next (s : GState)
  deriving DecidableEq, Repr

/-- One iteration of the main `while` loop (lines 146-187 of the source):
run the attempt loop; if not guessed, reset `win_streak` to 0, set reason
`"lost"` and break; else if `win_streak >= 5`, set the champion reason and
break; else ask to play again — `"no"` sets reason `"exit"` and the loop
condition fails, `"yes"` continues. -/
def stepRound (s : GState) (r : RoundInput) : StepResult :=
  let a := attemptLoop r.target r.guesses s
  if a.2.1 = false then .ended { a.1 with win_streak := 0 } "lost"
  else if 5 ≤ a.1.win_streak then .ended a.1 champion_reason
  else if r.playAgain then .next a.1
  else .ended a.1 "exit"

/-- The main `while play_game == "yes"` loop, driven by the list of
per-round inputs.  Returns the final state and `game_over_reason`;
`none` when the round-input list runs out while the loop would continue. -/
def gameLoop (s : GState) : List RoundInput → Option (GState × String)
  | [] => none
  | r :: rest =>
    match stepRound s r with
    | .ended s2 reason => some (s2, reason)
    | .next s2 => gameLoop s2 rest

/-- The initial value of the global counters. -/
def initState : GState := ⟨0, 0, 0⟩

/-- The whole session: `play_game = get_yes_no(...)`; when the first answer
is `"no"` the loop body never runs and `game_over_reason` keeps its default
`"exit"`. -/
def runSession (playFirst : Bool) (rounds : List RoundInput) :
    Option (GState × String) :=
  if playFirst then gameLoop initState rounds
  else some (initState, "exit")

/-- The `info` dict passed to `show_status`, with the `.get` defaults
already supplied (`final` defaults to `False`, `reason` to `"exit"`,
the counters to 0). -/
structure StatusInfo where
  score : ℕ
  total_attempts : ℕ
  win_streak : ℕ
  final : Bool
  reason : String
  deriving DecidableEq, Repr

/-- The `Final score: ..., Total attempts: ...` line of `show_status`. -/
def finalScoreLine (score total_attempts : ℕ) : String :=
  "Final score: " ++ toString score ++ ", Total attempts: " ++ toString total_attempts

/-- The `print("🔥 Win Streak Progress:", progress_bar(...))` line
(`print` joins its two arguments with one space). -/
def streakLine (win_streak : ℕ) : String :=
  "🔥 Win Streak Progress: " ++ progress_bar win_streak 5 10

/-- `show_status(info)` from the source, as the list of printed lines.
Final summaries branch on `reason`: `"win5"`, `"lost"`, `"exit"`; any other
reason value prints nothing.  The non-final branch prints the running score
and streak bar. -/
def show_status (info : StatusInfo) : List String :=
  if info.final then
    if info.reason = "win5" then
      ["🏆🔥 Congratulations! You won 5 games in a row!!",
       finalScoreLine info.score info.total_attempts,
       "👋 Thanks for playing, you\'re a champion!"]
    else if info.reason = "lost" then
      ["💀 Game Over: You lost the last round.",
       finalScoreLine info.score info.total_attempts]
      ++ (if info.win_streak < 5 then [streakLine info.win_streak] else [])
      ++ ["👋 Better luck next time!"]
    else if info.reason = "exit" then
      ["👋 You exited the game."]
      ++ (if 0 < info.total_attempts then
            [finalScoreLine info.score info.total_attempts]
            ++ (if info.win_streak < 5 then [streakLine info.win_streak] else [])
          else [])
    else []
  else
    ["📊 Score so far: " ++ toString info.score, streakLine info.win_streak]

/-- The final `show_status({...final: True...})` call of the program
(lines 190-196 of the source), applied to the outcome of the session. -/
def finalOutput (playFirst : Bool) (rounds : List RoundInput) :
    Option (List String) :=
  (runSession playFirst rounds).map fun p =>
    show_status ⟨p.1.score, p.1.total_attempts, p.1.win_streak, true, p.2⟩

/-- The attempt counts of the rounds actually played by `gameLoop`
(specification artifact used to state the `total_attempts` invariant). -/
def roundAttemptCounts (s : GState) : List RoundInput → List ℕ
  | [] => []
  | r :: rest =>
    match stepRound s r with
    | .ended _ _ => [(attemptLoop r.target r.guesses s).2.2]
    | .next s2 => (attemptLoop r.target r.guesses s).2.2 :: roundAttemptCounts s2 rest

/-- Fuel-driven base-2 logarithm: `lgAux fuel n` halves `n` until it
reaches 0 or 1.  With `fuel ≥ n`, as `lg` supplies, it computes
`⌊log₂ n⌋` for every `n ≥ 1`. -/
def lgAux : ℕ → ℕ → ℕ
  | 0, _ => 0
  | fuel + 1, n => if n ≤ 1 then 0 else lgAux fuel (n / 2) + 1

/-- `⌊log₂ n⌋` for `n ≥ 1` (and 0 at 0). -/
def lg (n : ℕ) : ℕ := lgAux n n

/-- Round the exact non-negative quotient `a / b` to the nearest integer,
ties to even (the IEEE-754 default rounding applied to a scaled value). -/
def rhe (a b : ℕ) : ℕ :=
  let q := a / b
  let r := a % b
  if 2 * r < b then q
  else if b < 2 * r then q + 1
  else if q % 2 = 0 then q else q + 1

/-- The IEEE-754 binary64 value nearest to `num / den`, as a pair
`(s, e)` of value `s * 2 ^ e` with `s ∈ [2^52, 2^53)` (or `s = 0`).
Exponents are unbounded: overflow, underflow and the `den = 0` error case
lie outside the modelled range.  This is the correctly rounded result
Python's `int / int` true division produces. -/
def divRound (num den : ℕ) : ℕ × ℤ :=
  if num = 0 ∨ den = 0 then (0, 0)
  else
    let E : ℤ :=
      if den * 2 ^ lg num ≤ num * 2 ^ lg den then (lg num : ℤ) - lg den
      else (lg num : ℤ) - lg den - 1
    let k : ℤ := 52 - E
    let s0 : ℕ :=
      if 0 ≤ k then rhe (num * 2 ^ k.toNat) den
      else rhe num (den * 2 ^ (-k).toNat)
    if s0 = 2 ^ 53 then (2 ^ 52, E - 51) else (s0, E - 52)

/-- Round the exact value `p * 2 ^ e` to the nearest binary64. -/
def normalizeRound (p : ℕ) (e : ℤ) : ℕ × ℤ :=
  if p = 0 then (0, 0)
  else if lg p ≤ 52 then (p * 2 ^ (52 - lg p), e - (52 - lg p))
  else
    let sh := lg p - 52
    let s0 := rhe p (2 ^ sh)
    if s0 = 2 ^ 53 then (2 ^ 52, e + sh + 1) else (s0, e + sh)

/-- Binary64 multiplication of a double by a natural number below `2^53`
(Python's `progress * length` with the int converted exactly): the exact
product rounded once. -/
def mulRound (d : ℕ × ℤ) (l : ℕ) : ℕ × ℤ := normalizeRound (d.1 * l) d.2

/-- Python `int(...)` on a non-negative double: truncation toward zero,
i.e. the floor. -/
def floatTrunc (d : ℕ × ℤ) : ℕ :=
  if 0 ≤ d.2 then d.1 * 2 ^ d.2.toNat else d.1 / 2 ^ (-d.2).toNat

/-- The fill count `int(min(streak, max_streak) / max_streak * length)` of
`progress_bar`, computed at actual IEEE-754 binary64 precision: integer
`min`, correctly rounded true division, correctly rounded multiplication,
truncation. -/
def pyFilled (streak max_streak length : ℕ) : ℕ :=
  floatTrunc (mulRound (divRound (min streak max_streak) max_streak) length)

/-- `progress_bar` with the fill computed at binary64 precision. -/
def progress_bar_py (streak max_streak length : ℕ) : String :=
  let filled := pyFilled streak max_streak length
  let bar : String :=
    String.mk (List.replicate filled '█' ++ List.replicate (length - filled) '-')
  "[" ++ bar ++ "] " ++ toString streak ++ "/" ++ toString max_streak

/-- The exact value of the `int(progress * length)` computation: the rational
floor equals natural-number division. -/
theorem progress_bar_filled (streak max_streak length : ℕ) :
    ⌊((min streak max_streak : ℕ) : ℚ) / (max_streak : ℚ) * (length : ℚ)⌋₊
      = min streak max_streak * length / max_streak := by
  rw [div_mul_eq_mul_div,
    show ((min streak max_streak : ℕ) : ℚ) * (length : ℚ)
        = ((min streak max_streak * length : ℕ) : ℚ) by push_cast; ring,
    Nat.floor_div_nat, Nat.floor_natCast]

/-- `progress_bar`, rewritten with the floor computed in `ℕ`. -/
theorem progress_bar_eq (streak max_streak length : ℕ) :
    progress_bar streak max_streak length =
      "[" ++ String.mk
          (List.replicate (min streak max_streak * length / max_streak) '█'
            ++ List.replicate (length - min streak max_streak * length / max_streak) '-')
        ++ "] " ++ toString streak ++ "/" ++ toString max_streak := by
  simp only [progress_bar, progress_bar_filled]

/-- How one pass of the attempt loop transforms the counters:
`total_attempts` grows by exactly the number of attempts used; a won round
adds 1 to `score` and `win_streak` and uses at least one attempt; a lost
round leaves `score` and `win_streak` untouched and uses every guess. -/
theorem attemptLoop_spec (number : ℤ) (gs : List ℤ) (s : GState) :
    (attemptLoop number gs s).1.total_attempts
        = s.total_attempts + (attemptLoop number gs s).2.2 ∧
    (attemptLoop number gs s).2.2 ≤ gs.length ∧
    ((attemptLoop number gs s).2.1 = true →
      1 ≤ (attemptLoop number gs s).2.2 ∧
      (attemptLoop number gs s).1.win_streak = s.win_streak + 1 ∧
      (attemptLoop number gs s).1.score = s.score + 1) ∧
    ((attemptLoop number gs s).2.1 = false →
      (attemptLoop number gs s).2.2 = gs.length ∧
      (attemptLoop number gs s).1.win_streak = s.win_streak ∧
      (attemptLoop number gs s).1.score = s.score) := by
  induction gs generalizing s with
  | nil => simp [attemptLoop]
  | cons g rest ih =>
    by_cases hg : g = number
    · simp [attemptLoop, hg]
    · have h := ih { s with total_attempts := s.total_attempts + 1 }
      rw [show ({ s with total_attempts := s.total_attempts + 1 } : GState).total_attempts
            = s.total_attempts + 1 from rfl,
          show ({ s with total_attempts := s.total_attempts + 1 } : GState).win_streak
            = s.win_streak from rfl,
          show ({ s with total_attempts := s.total_attempts + 1 } : GState).score
            = s.score from rfl] at h
      simp only [attemptLoop, if_neg hg]
      refine ⟨by omega, by simpa using Nat.add_le_add_right h.2.1 1, ?_, ?_⟩
      · intro hw
        obtain ⟨h1, h2, h3⟩ := h.2.2.1 hw
        exact ⟨by omega, h2, h3⟩
      · intro hw
        obtain ⟨h1, h2, h3⟩ := h.2.2.2 hw
        exact ⟨by simp [h1], h2, h3⟩

/-- If no supplied guess hits the target, the attempt loop reports the
round as not guessed. -/
theorem attemptLoop_all_miss (number : ℤ) (gs : List ℤ) (s : GState)
    (h : ∀ g ∈ gs, g ≠ number) : (attemptLoop number gs s).2.1 = false := by
  induction gs generalizing s with
  | nil => simp [attemptLoop]
  | cons g rest ih =>
    have hg : g ≠ number := h g (by simp)
    simp only [attemptLoop, if_neg hg]
    exact ih _ fun x hx => h x (by simp [hx])

/-- With a full supply of 3 guesses (as `get_user_guess` guarantees),
every round uses between 1 and 3 attempts. -/
theorem attemptLoop_count_bounds (number : ℤ) (gs : List ℤ) (s : GState)
    (hlen : gs.length = 3) :
    1 ≤ (attemptLoop number gs s).2.2 ∧ (attemptLoop number gs s).2.2 ≤ 3 := by
  have h := attemptLoop_spec number gs s
  cases hb : (attemptLoop number gs s).2.1 with
  | true => exact ⟨(h.2.2.1 hb).1, hlen ▸ h.2.1⟩
  | false =>
    have := (h.2.2.2 hb).1
    omega

/-- Exhaustive case analysis of one main-loop iteration. -/
theorem stepRound_cases (s : GState) (r : RoundInput) :
    ((attemptLoop r.target r.guesses s).2.1 = false ∧
      stepRound s r
        = .ended { (attemptLoop r.target r.guesses s).1 with win_streak := 0 } "lost") ∨
    ((attemptLoop r.target r.guesses s).2.1 = true ∧
      5 ≤ (attemptLoop r.target r.guesses s).1.win_streak ∧
      stepRound s r = .ended (attemptLoop r.target r.guesses s).1 champion_reason) ∨
    ((attemptLoop r.target r.guesses s).2.1 = true ∧
      (attemptLoop r.target r.guesses s).1.win_streak < 5 ∧ r.playAgain = true ∧
      stepRound s r = .next (attemptLoop r.target r.guesses s).1) ∨
    ((attemptLoop r.target r.guesses s).2.1 = true ∧
      (attemptLoop r.target r.guesses s).1.win_streak < 5 ∧ r.playAgain = false ∧
      stepRound s r = .ended (attemptLoop r.target r.guesses s).1 "exit") := by
  by_cases h1 : (attemptLoop r.target r.guesses s).2.1 = false
  · exact Or.inl ⟨h1, by simp [stepRound, h1]⟩
  · have h1' : (attemptLoop r.target r.guesses s).2.1 = true := by
      simpa using h1
    by_cases h2 : 5 ≤ (attemptLoop r.target r.guesses s).1.win_streak
    · exact Or.inr (Or.inl ⟨h1', h2, by simp [stepRound, h1, h2]⟩)
    · by_cases h3 : r.playAgain = true
      · exact Or.inr (Or.inr (Or.inl
          ⟨h1', by omega, h3, by simp [stepRound, h1, h2, h3]⟩))
      · exact Or.inr (Or.inr (Or.inr
          ⟨h1', by omega, by simpa using h3, by simp [stepRound, h1, h2, h3]⟩))

/-- `total_attempts` at the end of the session is the starting value plus
the attempts of every round actually played. -/
theorem gameLoop_total (rounds : List RoundInput) (s sF : GState) (reason : String)
    (h : gameLoop s rounds = some (sF, reason)) :
    sF.total_attempts = s.total_attempts + (roundAttemptCounts s rounds).sum := by
  induction rounds generalizing s with
  | nil => simp [gameLoop] at h
  | cons r rest ih =>
    have htot := (attemptLoop_spec r.target r.guesses s).1
    rcases stepRound_cases s r with ⟨hb, hstep⟩ | ⟨hb, hw, hstep⟩
      | ⟨hb, hw, hp, hstep⟩ | ⟨hb, hw, hp, hstep⟩ <;>
      simp only [gameLoop, roundAttemptCounts, hstep, Option.some.injEq,
        Prod.mk.injEq, List.sum_cons, List.sum_nil] at h ⊢
    · obtain ⟨rfl, rfl⟩ := h
      simpa using htot
    · obtain ⟨rfl, rfl⟩ := h
      simpa using htot
    · have := ih _ h
      omega
    · obtain ⟨rfl, rfl⟩ := h
      simpa using htot

/-- Every recorded per-round attempt count lies in `[1, 3]`, provided every
round comes with its full supply of 3 validated guesses. -/
theorem roundAttemptCounts_bounds (rounds : List RoundInput) (s : GState)
    (hlen : ∀ r ∈ rounds, r.guesses.length = 3) :
    ∀ k ∈ roundAttemptCounts s rounds, 1 ≤ k ∧ k ≤ 3 := by
  induction rounds generalizing s with
  | nil => simp [roundAttemptCounts]
  | cons r rest ih =>
    have hk := attemptLoop_count_bounds r.target r.guesses s (hlen r (by simp))
    intro k hkmem
    rcases stepRound_cases s r with ⟨hb, hstep⟩ | ⟨hb, hw, hstep⟩
      | ⟨hb, hw, hp, hstep⟩ | ⟨hb, hw, hp, hstep⟩ <;>
      simp only [roundAttemptCounts, hstep, List.mem_cons, List.mem_singleton,
        List.not_mem_nil, or_false] at hkmem
    · exact hkmem ▸ hk
    · exact hkmem ▸ hk
    · rcases hkmem with rfl | hkmem
      · exact hk
      · exact ih _ (fun x hx => hlen x (by simp [hx])) k hkmem
    · exact hkmem ▸ hk

/-- When the loop ends with reason `"exit"`, the streak is still below 5
(the champion check precedes the play-again question). -/
theorem gameLoop_exit_streak (rounds : List RoundInput) (s sF : GState)
    (h : gameLoop s rounds = some (sF, "exit")) : sF.win_streak < 5 := by
  induction rounds generalizing s with
  | nil => simp [gameLoop] at h
  | cons r rest ih =>
    rcases stepRound_cases s r with ⟨hb, hstep⟩ | ⟨hb, hw, hstep⟩
      | ⟨hb, hw, hp, hstep⟩ | ⟨hb, hw, hp, hstep⟩ <;>
      simp only [gameLoop, hstep, Option.some.injEq, Prod.mk.injEq] at h
    · exact absurd h.2.symm (by decide)
    · exact absurd h.2.symm (by decide)
    · exact ih _ h
    · exact h.1 ▸ hw

/-- C2: `progress_bar` (the spec's `renderBar`) meets the three reference
equalities: empty bar at streak 0, full bar at streak 5, six of ten cells
at streak 3. -/
theorem progress_bar_reference_values :
    progress_bar 0 5 10 = "[----------] 0/5" ∧
    progress_bar 5 5 10 = "[██████████] 5/5" ∧
    progress_bar 3 5 10 = "[██████----] 3/5" := by
  refine ⟨?_, ?_, ?_⟩ <;> rw [progress_bar_eq] <;> decide

/-- C3 counterexample: the claimed floor formula is false of the program
for `streak = 1`, `target = length = 49`.  At binary64 precision Python
computes `int(min(1,49)/49 * 49) = 0` — the nearest double to `1/49` is
`5882252574524729 * 2 ^ (-58)` and multiplying it by 49 rounds to
`1 - 2 ^ (-53)` — while the claimed `floor(min(1,49)/49 * 49)` is 1, so
the rendered bar has no filled cell where the claim requires one. -/
theorem progress_bar_float_counterexample :
    pyFilled 1 49 49 = 0 ∧
    min 1 49 * 49 / 49 = 1 ∧
    progress_bar_py 1 49 49
      ≠ "[" ++ String.mk
          (List.replicate (min 1 49 * 49 / 49) '█'
            ++ List.replicate (49 - min 1 49 * 49 / 49) '-')
        ++ "] " ++ toString 1 ++ "/" ++ toString 49 :=
  ⟨by decide, by decide, by decide⟩

/-- C3 (amended): at the parameters the program actually calls the bar
with — target 5 and length 10 — the binary64 computation is exact, so for
every non-negative `streak` the fill count equals
`floor(min(streak,5)/5 * 10)`, the bar is that many filled cells followed
by `10 - filled` empty cells with the raw ratio `streak/5` appended, the
fill never exceeds 10, and for `streak > 5` it is clamped at exactly 10
while the ratio still reports the raw streak.  (For general `target` and
`length` the floor formula fails on the program: see
`progress_bar_float_counterexample`.) -/
theorem progress_bar_default_formula (streak : ℕ) :
    pyFilled streak 5 10 = min streak 5 * 10 / 5 ∧
    progress_bar_py streak 5 10 =
      "[" ++ String.mk
          (List.replicate (min streak 5 * 10 / 5) '█'
            ++ List.replicate (10 - min streak 5 * 10 / 5) '-')
        ++ "] " ++ toString streak ++ "/" ++ toString 5 ∧
    min streak 5 * 10 / 5 ≤ 10 ∧
    (5 < streak → min streak 5 * 10 / 5 = 10) := by
  rcases Nat.lt_or_ge streak 5 with h | h
  · interval_cases streak <;>
      exact ⟨by decide, by decide, by decide, by decide⟩
  · have hm : min streak 5 = 5 := min_eq_right h
    have hF : pyFilled streak 5 10 = 10 := by
      simp only [pyFilled, hm]
      decide
    have h10 : min streak 5 * 10 / 5 = 10 := by rw [hm]
    refine ⟨hF.trans h10.symm, ?_, le_of_eq h10, fun _ => h10⟩
    simp only [progress_bar_py, hF, h10]

/-- C3 witness: at streak 7 the binary64 bar is full (clamped at 10) and
the ratio shows the raw 7/5. -/
theorem progress_bar_default_formula_witness :
    5 < 7 ∧ min 7 5 * 10 / 5 = 10 ∧
    progress_bar_py 7 5 10 = "[██████████] 7/5" :=
  ⟨by decide, (progress_bar_default_formula 7).2.2.2 (by decide),
   ((progress_bar_default_formula 7).2.1).trans (by decide)⟩

/-- At the default parameters the bit-exact binary64 model and the
exact-rational model of the bar agree for every streak: the justification
for using the rational `progress_bar` at the program's call sites. -/
theorem progress_bar_default_agree (streak : ℕ) :
    progress_bar_py streak 5 10 = progress_bar streak 5 10 := by
  rw [progress_bar_eq]
  rcases Nat.lt_or_ge streak 5 with h | h
  · interval_cases streak <;> decide
  · have hm : min streak 5 = 5 := min_eq_right h
    have hF : pyFilled streak 5 10 = 10 := by
      simp only [pyFilled, hm]
      decide
    have h10 : min streak 5 * 10 / 5 = 10 := by rw [hm]
    simp only [progress_bar_py, hF, h10]

/-- C4: for guesses and targets in `[1,10]`, the per-attempt response is
the `"⬆️ Higher!"` hint exactly when the guess is below the target, the
`"⬇️ Lower!"` hint exactly when it is above, and the round is won by the
attempt exactly when they are equal. -/
theorem attemptResponse_spec (g t : ℤ)
    (hg1 : 1 ≤ g) (hg2 : g ≤ 10) (ht1 : 1 ≤ t) (ht2 : t ≤ 10) :
    (attemptResponse g t = "⬆️ Higher!" ↔ g < t) ∧
    (attemptResponse g t = "⬇️ Lower!" ↔ t < g) ∧
    (attemptResponse g t = "🎉 Correct!" ↔ g = t) ∧
    (∀ s : GState, (attemptLoop t [g] s).2.1 = true ↔ g = t) := by
  rcases lt_trichotomy g t with h | h | h
  · have hne : g ≠ t := ne_of_lt h
    simp [attemptResponse, attemptLoop, hne, h, not_lt_of_lt h]
  · subst h
    simp [attemptResponse, attemptLoop]
  · have hne : g ≠ t := ne_of_gt h
    simp [attemptResponse, attemptLoop, hne, h, not_lt_of_lt h, lt_asymm h]

/-- C4 witness: guess 2 against target 9 is answered with the higher hint. -/
theorem attemptResponse_spec_witness :
    (1 ≤ (2 : ℤ) ∧ (2 : ℤ) ≤ 10 ∧ 1 ≤ (9 : ℤ) ∧ (9 : ℤ) ≤ 10) ∧
    attemptResponse 2 9 = "⬆️ Higher!" :=
  ⟨by decide,
    (attemptResponse_spec 2 9 (by decide) (by decide) (by decide)
      (by decide)).1.mpr (by decide)⟩

/-- C5: across one main-loop transition, `win_streak` becomes 0 exactly on
a round loss, grows by exactly 1 on a round win (whether the session then
ends or continues), and is not changed by the attempts of an unwon round
before the explicit reset. -/
theorem win_streak_transition (s : GState) (r : RoundInput) :
    (∀ s2 reason, stepRound s r = .ended s2 reason →
      (reason = "lost" → s2.win_streak = 0) ∧
      (reason ≠ "lost" → s2.win_streak = s.win_streak + 1)) ∧
    (∀ s2, stepRound s r = .next s2 → s2.win_streak = s.win_streak + 1) ∧
    ((attemptLoop r.target r.guesses s).2.1 = false →
      (attemptLoop r.target r.guesses s).1.win_streak = s.win_streak) := by
  have hspec := attemptLoop_spec r.target r.guesses s
  refine ⟨?_, ?_, fun hb => (hspec.2.2.2 hb).2.1⟩
  · intro s2 reason h
    rcases stepRound_cases s r with ⟨hb, hstep⟩ | ⟨hb, hw, hstep⟩
      | ⟨hb, hw, hp, hstep⟩ | ⟨hb, hw, hp, hstep⟩ <;> rw [hstep] at h
    · injection h with h1 h2
      subst h2; subst h1
      exact ⟨fun _ => rfl, fun hne => absurd rfl hne⟩
    · injection h with h1 h2
      subst h2; subst h1
      exact ⟨fun hlost => absurd hlost (by decide),
        fun _ => (hspec.2.2.1 hb).2.1⟩
    · exact StepResult.noConfusion h
    · injection h with h1 h2
      subst h2; subst h1
      exact ⟨fun hlost => absurd hlost (by decide),
        fun _ => (hspec.2.2.1 hb).2.1⟩
  · intro s2 h
    rcases stepRound_cases s r with ⟨hb, hstep⟩ | ⟨hb, hw, hstep⟩
      | ⟨hb, hw, hp, hstep⟩ | ⟨hb, hw, hp, hstep⟩ <;> rw [hstep] at h
    · exact StepResult.noConfusion h
    · exact StepResult.noConfusion h
    · injection h with h1
      subst h1
      exact (hspec.2.2.1 hb).2.1
    · exact StepResult.noConfusion h

/-- C5 witness: a round won on the first guess raises the streak from 0
to 1. -/
theorem win_streak_transition_witness :
    (⟨1, 1, 1⟩ : GState).win_streak = (⟨0, 0, 0⟩ : GState).win_streak + 1 :=
  (win_streak_transition ⟨0, 0, 0⟩ ⟨3, [3, 1, 1], true⟩).2.1 ⟨1, 1, 1⟩ (by decide)

/-- C6: the final `total_attempts` equals the starting value plus the sum
of the per-round attempt counts of the rounds actually played, each count
lying in `[1, 3]` (given the full 3-guess supply of a real round, the lost
round included), and `total_attempts` never decreases. -/
theorem total_attempts_spec (s : GState) (rounds : List RoundInput)
    (sF : GState) (reason : String)
    (hlen : ∀ r ∈ rounds, r.guesses.length = 3)
    (h : gameLoop s rounds = some (sF, reason)) :
    sF.total_attempts = s.total_attempts + (roundAttemptCounts s rounds).sum ∧
    (∀ k ∈ roundAttemptCounts s rounds, 1 ≤ k ∧ k ≤ 3) ∧
    s.total_attempts ≤ sF.total_attempts := by
  have h1 := gameLoop_total rounds s sF reason h
  exact ⟨h1, roundAttemptCounts_bounds rounds s hlen, by omega⟩

/-- C6 witness: one round won on its third attempt, then quitting, gives 3
total attempts. -/
theorem total_attempts_spec_witness :
    (⟨1, 3, 1⟩ : GState).total_attempts
        = (⟨0, 0, 0⟩ : GState).total_attempts
          + (roundAttemptCounts ⟨0, 0, 0⟩ [⟨3, [1, 2, 3], false⟩]).sum ∧
    (⟨0, 0, 0⟩ : GState).total_attempts ≤ (⟨1, 3, 1⟩ : GState).total_attempts :=
  ⟨(total_attempts_spec ⟨0, 0, 0⟩ [⟨3, [1, 2, 3], false⟩] ⟨1, 3, 1⟩ "exit"
      (by decide) (by decide)).1,
   (total_attempts_spec ⟨0, 0, 0⟩ [⟨3, [1, 2, 3], false⟩] ⟨1, 3, 1⟩ "exit"
      (by decide) (by decide)).2.2⟩

/-- C9: a round in which all 3 supplied guesses miss the target ends the
whole session at once — for any continuation input and any prior streak —
with reason `"lost"`, `win_streak` reset to 0, the score unchanged and the
3 failed attempts counted. -/
theorem lost_round_ends_session (s : GState) (r : RoundInput)
    (rest : List RoundInput) (hlen : r.guesses.length = 3)
    (hmiss : ∀ g ∈ r.guesses, g ≠ r.target) :
    gameLoop s (r :: rest)
      = some (⟨s.score, s.total_attempts + 3, 0⟩, "lost") := by
  have hb := attemptLoop_all_miss r.target r.guesses s hmiss
  have hspec := attemptLoop_spec r.target r.guesses s
  obtain ⟨hcount, hstreak, hscore⟩ := hspec.2.2.2 hb
  have hstep : stepRound s r
      = .ended { (attemptLoop r.target r.guesses s).1 with win_streak := 0 }
          "lost" := by
    simp [stepRound, hb]
  have hstate :
      ({ (attemptLoop r.target r.guesses s).1 with win_streak := 0 } : GState)
        = ⟨s.score, s.total_attempts + 3, 0⟩ := by
    have h1 := hspec.1
    show GState.mk (attemptLoop r.target r.guesses s).1.score
        (attemptLoop r.target r.guesses s).1.total_attempts 0
      = GState.mk s.score (s.total_attempts + 3) 0
    rw [GState.mk.injEq]
    exact ⟨hscore, by omega, rfl⟩
  simp [gameLoop, hstep, hstate]

/-- C9 witness: with a prior streak of 2, missing all of a round's 3
attempts ends the session with reason lost and a zero streak. -/
theorem lost_round_ends_session_witness :
    gameLoop ⟨2, 6, 2⟩ [⟨5, [1, 2, 3], true⟩, ⟨1, [1, 1, 1], true⟩]
      = some (⟨2, 9, 0⟩, "lost") :=
  lost_round_ends_session ⟨2, 6, 2⟩ ⟨5, [1, 2, 3], true⟩ [⟨1, [1, 1, 1], true⟩]
    (by decide) (by decide)

/-- C10: a final `show_status` call whose reason is none of `"win5"`,
`"lost"`, `"exit"` prints nothing at all. -/
theorem show_status_unrecognized (info : StatusInfo) (hf : info.final = true)
    (h1 : info.reason ≠ "win5") (h2 : info.reason ≠ "lost")
    (h3 : info.reason ≠ "exit") :
    show_status info = [] := by
  simp [show_status, hf, h1, h2, h3]

/-- C10 witness: the reason string the program actually assigns after 5
straight wins is unrecognized, so the final summary is empty. -/
theorem show_status_unrecognized_witness :
    (champion_reason ≠ "win5" ∧ champion_reason ≠ "lost" ∧
      champion_reason ≠ "exit") ∧
    show_status ⟨5, 5, 5, true, champion_reason⟩ = [] :=
  ⟨by decide,
   show_status_unrecognized ⟨5, 5, 5, true, champion_reason⟩ rfl
     (by decide) (by decide) (by decide)⟩

/-- C1 (bug evidence): after 5 consecutive wins the session does end
immediately with the reason set at line 181, but that reason is the
sentence `"🎉 5 consecutive wins achieved"`, not the `"win5"` tag
`show_status` recognizes, so the program prints no final summary at all;
the champion summary exists but is only produced for the tag `"win5"`. -/
theorem champion_run_final_summary_empty :
    runSession true (List.replicate 5 ⟨1, [1, 1, 1], true⟩)
        = some (⟨5, 5, 5⟩, champion_reason) ∧
    champion_reason ≠ "win5" ∧
    finalOutput true (List.replicate 5 ⟨1, [1, 1, 1], true⟩) = some [] ∧
    show_status ⟨5, 5, 5, true, "win5"⟩
      = ["🏆🔥 Congratulations! You won 5 games in a row!!",
         finalScoreLine 5 5,
         "👋 Thanks for playing, you\'re a champion!"] :=
  ⟨by decide, by decide, by decide, by decide⟩

/-- Auxiliary, C8: `get_user_guess` returns `none` (i.e. keeps looping and
never returns to the caller) exactly when no supplied input line is a
valid guess. -/
theorem get_user_guess_none_iff (inputs : List (Option ℤ)) :
    get_user_guess inputs = none ↔ ∀ i ∈ inputs, isValidGuess i = false := by
  induction inputs with
  | nil => simp [get_user_guess]
  | cons i rest ih =>
    cases i with
    | none =>
      have hstep : get_user_guess (none :: rest) = none
          ↔ get_user_guess rest = none := by
        cases hres : get_user_guess rest with
        | none => simp [get_user_guess, hres]
        | some p =>
          cases p with
          | mk g m => simp [get_user_guess, hres]
      rw [hstep, ih]
      simp [isValidGuess]
    | some g0 =>
      by_cases hv : 1 ≤ g0 ∧ g0 ≤ 10
      · have hstep : get_user_guess (some g0 :: rest) = some (g0, []) := by
          simp [get_user_guess, hv]
        simp [hstep, isValidGuess, hv]
      · have hvb : isValidGuess (some g0) = false := by
          simp only [isValidGuess]
          exact decide_eq_false hv
        have hstep : get_user_guess (some g0 :: rest) = none
            ↔ get_user_guess rest = none := by
          cases hres : get_user_guess rest with
          | none => simp [get_user_guess, hres, hv]
          | some p =>
            cases p with
            | mk g m => simp [get_user_guess, hres, hv]
        rw [hstep, ih]
        simp [List.forall_mem_cons, hvb]

/-- Auxiliary, C8: when `get_user_guess` returns, the returned guess is the
first valid input line, it lies in `[1, 10]`, and the error lines printed
are exactly the class-specific rejections of the invalid prefix. -/
theorem get_user_guess_some_spec (inputs : List (Option ℤ)) (g : ℤ)
    (msgs : List String) (h : get_user_guess inputs = some (g, msgs)) :
    (1 ≤ g ∧ g ≤ 10) ∧
    (inputs.dropWhile fun i => ! isValidGuess i).head? = some (some g) ∧
    msgs = (inputs.takeWhile fun i => ! isValidGuess i).map rejectionMsg := by
  induction inputs generalizing msgs with
  | nil => simp [get_user_guess] at h
  | cons i rest ih =>
    cases i with
    | none =>
      cases hres : get_user_guess rest with
      | none =>
        simp only [get_user_guess, hres] at h
        exact absurd h (by simp)
      | some p =>
        obtain ⟨g2, m2⟩ := p
        simp only [get_user_guess, hres, Option.some.injEq,
          Prod.mk.injEq] at h
        obtain ⟨rfl, rfl⟩ := h
        obtain ⟨hb, hhead, hmsgs⟩ := ih m2 hres
        refine ⟨hb, ?_, ?_⟩
        · simpa [List.dropWhile_cons, isValidGuess] using hhead
        · simp [List.takeWhile_cons, isValidGuess, rejectionMsg, hmsgs]
    | some g0 =>
      by_cases hv : 1 ≤ g0 ∧ g0 ≤ 10
      · simp only [get_user_guess, if_pos hv, Option.some.injEq,
          Prod.mk.injEq] at h
        obtain ⟨rfl, rfl⟩ := h
        refine ⟨hv, ?_, ?_⟩
        · simp [List.dropWhile_cons, isValidGuess, hv]
        · simp [List.takeWhile_cons, isValidGuess, hv]
      · have hvb : isValidGuess (some g0) = false := by
          simp only [isValidGuess]
          exact decide_eq_false hv
        cases hres : get_user_guess rest with
        | none =>
          simp only [get_user_guess, if_neg hv, hres] at h
          exact absurd h (by simp)
        | some p =>
          obtain ⟨g2, m2⟩ := p
          simp only [get_user_guess, if_neg hv, hres, Option.some.injEq,
            Prod.mk.injEq] at h
          obtain ⟨rfl, rfl⟩ := h
          obtain ⟨hb, hhead, hmsgs⟩ := ih m2 hres
          refine ⟨hb, ?_, ?_⟩
          · simpa [List.dropWhile_cons, hvb] using hhead
          · simp [List.takeWhile_cons, hvb, rejectionMsg, hmsgs]

/-- C8: `get_user_guess` only ever returns an integer in `[1, 10]` — namely
the first valid input line — after rejecting each non-integer line with the
format error and each out-of-range integer line with the distinct range
error; it never raises to the caller: its only failure mode is looping,
i.e. a `none` result exactly when no valid line ever arrives. -/
theorem get_user_guess_spec (inputs : List (Option ℤ)) :
    (∀ g msgs, get_user_guess inputs = some (g, msgs) →
      (1 ≤ g ∧ g ≤ 10) ∧
      (inputs.dropWhile fun i => ! isValidGuess i).head? = some (some g) ∧
      msgs = (inputs.takeWhile fun i => ! isValidGuess i).map rejectionMsg) ∧
    (get_user_guess inputs = none ↔ ∀ i ∈ inputs, isValidGuess i = false) ∧
    guess_format_msg ≠ guess_range_msg :=
  ⟨fun g msgs h => get_user_guess_some_spec inputs g msgs h,
   get_user_guess_none_iff inputs, by decide⟩

/-- C8 witness: after a non-integer line and an out-of-range line, the
guess 7 is accepted; a supply containing a valid line never loops. -/
theorem get_user_guess_spec_witness :
    (1 ≤ (7 : ℤ) ∧ (7 : ℤ) ≤ 10) ∧
    get_user_guess [none, some 20, some 7] ≠ none :=
  ⟨((get_user_guess_spec [none, some 20, some 7]).1 7
      [guess_format_msg, guess_range_msg] (by decide)).1,
   fun hn =>
     absurd ((get_user_guess_spec [none, some 20, some 7]).2.1.mp hn
       (some 7) (by decide)) (by decide)⟩

/-- C7: a session ending with reason `"exit"` always has a streak below 5,
and its final summary is the farewell line followed — exactly when at least
one guess was made — by the score/attempts line and the streak bar; in
particular, answering no to the initial play prompt ends the session with
`total_attempts = 0`, so only the farewell is printed. -/
theorem exit_summary (playFirst : Bool) (rounds : List RoundInput)
    (sF : GState) (h : runSession playFirst rounds = some (sF, "exit")) :
    sF.win_streak < 5 ∧
    (playFirst = false → sF.total_attempts = 0) ∧
    show_status ⟨sF.score, sF.total_attempts, sF.win_streak, true, "exit"⟩ =
      "👋 You exited the game." ::
        (if 0 < sF.total_attempts then
          [finalScoreLine sF.score sF.total_attempts, streakLine sF.win_streak]
        else []) := by
  have hkey : sF.win_streak < 5 ∧ (playFirst = false → sF.total_attempts = 0) := by
    cases playFirst with
    | false =>
      have hsf : initState = sF := by simpa [runSession] using h
      rw [← hsf]
      exact ⟨by decide, fun _ => rfl⟩
    | true =>
      have hg : gameLoop initState rounds = some (sF, "exit") := by
        simpa [runSession] using h
      exact ⟨gameLoop_exit_streak rounds initState sF hg,
        fun hcontra => by simp at hcontra⟩
  refine ⟨hkey.1, hkey.2, ?_⟩
  simp [show_status, hkey.1]

/-- C7 witness: answering no to the initial prompt yields an exit at the
zero state, and a final summary of the farewell line alone. -/
theorem exit_summary_witness :
    (⟨0, 0, 0⟩ : GState).win_streak < 5 ∧
    show_status ⟨0, 0, 0, true, "exit"⟩ = ["👋 You exited the game."] := by
  have h := exit_summary false [] ⟨0, 0, 0⟩ (by decide)
  exact ⟨h.1, h.2.2.trans (by decide)⟩
